import Mathlib

/-!
A shallow embedding of `RobotExplorer.py` (BruceEckel/RobotExplorerPy).

Python rooms are heap objects referenced by identity; the grid maps
`(row, col)` coordinates to rooms, each coordinate getting a fresh room, so
room identity coincides with the coordinate for grid rooms.  We therefore
represent a reference to a room (`RoomRef`) as either a grid coordinate or
the shared edge sentinel `Doors.edge`.  Mutation of a room's fields
(`occupant`, `Teleport.target_room`) becomes functional update of the
coordinate-indexed grid, which models Python aliasing exactly: every
reference to the room sees the update.

A fresh `Room(Edge())` (the default of `Doors.open` for an unrecognized
urge) is identified with the edge sentinel: both have occupant `Edge`, and a
robot can never come to occupy either (entering returns the robot's prior
room), so the two are observationally equal.
-/

namespace RobotExplorer

open List

/-- Grid coordinates `(row, col)`.  Python uses unbounded ints; neighbor
computation subtracts 1, so we use `Int`. -/
abbrev Coord := Int × Int

/-- The four movement urges (`class Urge(Enum)`). -/
inductive Urge where
  | North
  | South
  | East
  | West
deriving DecidableEq, Repr

/-- A reference to a room: a grid cell, or the shared edge sentinel
(`Doors.edge`). -/
inductive RoomRef where
  | grid (p : Coord)
  | edge
deriving DecidableEq, Repr

/-- The occupants of rooms: the subclasses of `Item`.
`Robot` is the robot-start marker item produced by `item_factory 'R'`;
`Teleport` carries its `target` label and its `target_room`
(Python `None` until teleport pairing assigns it, and only ever assigned a
grid room). -/
inductive Item where
  | Robot
  | Wall
  | Food
  | Teleport (target : Char) (target_room : Option Coord)
  | Empty
  | Edge
  | EndGame
deriving DecidableEq, Repr

/-- `item_factory`: scan the subclasses of `Item` in definition order
(Robot 'R', Wall '#', Food '.', Teleport (symbol `''`, never equal to a
single character), Empty '_', Edge '/', EndGame '!') and return the first
whose symbol matches; otherwise a `Teleport` labeled by the character, with
`target_room` initially `None`. -/
def item_factory (c : Char) : Item :=
  if c = 'R' then .Robot
  else if c = '#' then .Wall
  else if c = '.' then .Food
  else if c = '_' then .Empty
  else if c = '/' then .Edge
  else if c = '!' then .EndGame
  else .Teleport c none

/-- The four door links of a room (`class Doors`), each either a grid room
or the edge sentinel.  In the source, all four fields are initialized to
`Doors.edge` and reassigned by `connect`; we build rooms with their final
links. -/
structure Doors where
  north : RoomRef
  south : RoomRef
  east : RoomRef
  west : RoomRef
deriving DecidableEq, Repr

/-- `Doors.open` (named `openDoor` here because `open` is a Lean keyword):
dictionary dispatch over the four urges.  The argument is an `Option` so
that `none` models calling `open` with any value that is not one of the four
`Urge` members, in which case the dictionary's `.get` default produces an
edge room (`Room(Edge())`, identified with the sentinel — see header). -/
def Doors.openDoor (d : Doors) : Option Urge → RoomRef
  | some .North => d.north
  | some .South => d.south
  | some .East => d.east
  | some .West => d.west
  | none => .edge

/-- A grid cell: one occupant and four door links (`class Room`). -/
structure Room where
  occupant : Item
  doors : Doors
deriving DecidableEq, Repr

/-- The grid: the builder's insertion-ordered dict from coordinates to
rooms, as an association list with (by construction) distinct keys. -/
abbrev Grid := List (Coord × Room)

/-- Python `grid.get(p)`: first (unique) entry with the given key. -/
def lookupRoom : Grid → Coord → Option Room
  | [], _ => none
  | (q, r) :: rest, p => if p = q then some r else lookupRoom rest p

/-- `Doors.connect`'s local `link`: `grid.get((to_row, to_col), Doors.edge)`.
Only key membership matters for which reference comes back. -/
def link (keys : List Coord) (p : Coord) : RoomRef :=
  if p ∈ keys then .grid p else .edge

/-- `Doors.connect(row, col, grid)`: resolve the four adjacent coordinates
against the completed grid, defaulting to the edge sentinel. -/
def Doors.connect (row col : Int) (keys : List Coord) : Doors :=
  { north := link keys (row - 1, col)
    south := link keys (row + 1, col)
    east := link keys (row, col + 1)
    west := link keys (row, col - 1) }

/-- The robot (`class Robot`): a state machine holding its current room,
`None` until assigned. -/
structure Robot where
  room : Option RoomRef
deriving DecidableEq, Repr

/-- The whole game state after `GameBuilder.__init__`: the grid, and the
builder's `self.robot` — `none` when no robot-marker character was scanned,
in which case the attribute is never assigned at all. -/
structure Game where
  grid : Grid
  robot : Option Robot
deriving DecidableEq, Repr

/-- `Food.interact` mutates `room.occupant` in place; here: update the room
at the target coordinate (the edge sentinel's occupant is `Edge`, never
`Food`, so the `.edge` case never fires on a reachable call). -/
def updateOccupant (g : Grid) (target : RoomRef) (it : Item) : Grid :=
  match target with
  | .edge => g
  | .grid p => g.map fun e => if e.1 = p then (e.1, { e.2 with occupant := it }) else e

/-- `Item.interact(robot, room)` dispatched on the occupant of the entered
room.  Returns the room reference the robot will occupy (Python `None`
possible: the base `Item.interact` — inherited by `Robot` — falls through
with `pass`, and an unpaired `Teleport` returns its unset `target_room`)
together with the grid after any occupant mutation. -/
def Item.interact (it : Item) (robotRoom : Option RoomRef) (room : RoomRef)
    (g : Grid) : Option RoomRef × Grid :=
  match it with
  | .Robot => (none, g)
  | .Wall => (robotRoom, g)
  | .Food => (some room, updateOccupant g room .Empty)
  | .Teleport _ tr => (tr.map RoomRef.grid, g)
  | .Empty => (some room, g)
  | .Edge => (robotRoom, g)
  | .EndGame => (some room, g)

/-- `Room.enter(robot)`: delegate to the occupant's `interact`.  The edge
sentinel's occupant is `Edge`.  Result is `none` only for a dangling grid
reference, which cannot arise from a built game. -/
def Game.enterRoom (game : Game) (robotRoom : Option RoomRef) (target : RoomRef) :
    Option (Option RoomRef × Grid) :=
  match target with
  | .edge => some (Item.Edge.interact robotRoom .edge game.grid)
  | .grid p =>
    match lookupRoom game.grid p with
    | none => none
    | some room => some (room.occupant.interact robotRoom target game.grid)

/-- `Robot.move(urge)`:
`self.room = self.room.doors.open(urge).enter(self)`.
Result `none` models a raised `AttributeError`: `self.robot` was never
assigned, or `self.room` is `None` (`None.doors` fails), or `self.room` is
the edge sentinel (whose `doors` is an instance of the empty forward-declared
`Doors` stub class, which has no `open`). -/
def Game.move (game : Game) (u : Urge) : Option Game :=
  match game.robot with
  | none => none
  | some robot =>
    match robot.room with
    | some (.grid p) =>
      match lookupRoom game.grid p with
      | none => none
      | some room =>
        match game.enterRoom robot.room (room.doors.openDoor (some u)) with
        | none => none
        | some (newRoom, g2) => some { grid := g2, robot := some { room := newRoom } }
    | _ => none

/-- Iterated `Robot.move`, as driven by `GameBuilder.run`'s urge sequence;
propagates a crash. -/
def Game.moves (game : Game) (us : List Urge) : Option Game :=
  us.foldl (fun og u => og.bind fun g => g.move u) (some game)

/-- Python `maze.split("\n")` on the character list: the list of lines,
with empty segments kept (so `splitLines l` is never the empty list). -/
def splitLines : List Char → List (List Char)
  | [] => [[]]
  | c :: rest =>
    if c = '\n' then [] :: splitLines rest
    else
      match splitLines rest with
      | line :: ls => (c :: line) :: ls
      | [] => [[c]]

/-- Stage-1 scan of the maze text: split on newlines, enumerate rows then
columns, one cell per character. -/
def scanCells (maze : String) : List (Coord × Char) :=
  (splitLines maze.toList).enum.flatMap fun rl =>
    rl.2.enum.map fun cc => (((rl.1 : Int), (cc.1 : Int)), cc.2)

/-- Stage-1 occupants: each character's item, except that a scanned robot
marker leaves an `Empty` room behind (the robot is placed there instead). -/
def stage1Items (cells : List (Coord × Char)) : List (Coord × Item) :=
  cells.map fun pc =>
    (pc.1, match item_factory pc.2 with
      | .Robot => .Empty
      | it => it)

/-- The robot's recorded start: the last scanned cell whose factory item is
a `Robot` (each such cell reassigns `self.robot`). -/
def robotPos (cells : List (Coord × Char)) : Option Coord :=
  ((cells.filter fun pc => item_factory pc.2 = .Robot).getLast?).map (·.1)

/-- `self.teleports`: the rooms appended during the scan whose factory item
is a `Teleport`, in row-major scan order, with their target labels. -/
def teleportsOf (cells : List (Coord × Char)) : List (Coord × Char) :=
  cells.filterMap fun pc =>
    match item_factory pc.2 with
    | .Teleport t _ => some (pc.1, t)
    | _ => none

/-- `zip(it, it)` over one shared iterator: consecutive disjoint pairs;
an odd leftover is dropped. -/
def pairUp : List α → List (α × α)
  | a :: b :: rest => (a, b) :: pairUp rest
  | _ => []

/-- The effect of `occupant.target_room = <room at q>` on an occupant:
repoints a teleport; on any other item the assignment would merely attach a
stray attribute, leaving the occupant's behavior unchanged (and it is never
reached: the teleports list holds only teleport rooms). -/
def setTarget (q : Coord) : Item → Item
  | .Teleport t _ => .Teleport t (some q)
  | it => it

/-- `room1.occupant.target_room = room2`: point the teleport occupant at
coordinate `p` to the room at `q`. -/
def setTargetRoom (g : List (Coord × Item)) (p q : Coord) : List (Coord × Item) :=
  g.map fun e => if e.1 = p then (e.1, setTarget q e.2) else e

/-- Stage 3 proper: for each consecutive pair, make the two teleport rooms
each other's `target_room`. -/
def applyPairing (g : List (Coord × Item)) (ps : List (Coord × Coord)) :
    List (Coord × Item) :=
  ps.foldl (fun acc pq => setTargetRoom (setTargetRoom acc pq.1 pq.2) pq.2 pq.1) g

/-- The sort key order of `self.teleports.sort(key=lambda t:
t.occupant.target)`: ascending by target label (single-character strings
compare by code point, as `Char ≤` does). -/
def teleLE (a b : Coord × Char) : Prop := a.2 ≤ b.2

instance : DecidableRel teleLE := fun a b => inferInstanceAs (Decidable (a.2 ≤ b.2))

instance : IsTotal (Coord × Char) teleLE := ⟨fun a b => le_total a.2 b.2⟩

instance : IsTrans (Coord × Char) teleLE := ⟨fun _ _ _ => le_trans⟩

instance : IsRefl (Coord × Char) teleLE := ⟨fun _ => le_refl _⟩

/-- `self.teleports.sort(key=lambda t: t.occupant.target)`: Python's
`list.sort` is exactly the stable ascending sort by the key, here modeled by
insertion sort on the non-strict key order (stability is proved below in
`filter_sortTeleports`). -/
def sortTeleports (ts : List (Coord × Char)) : List (Coord × Char) :=
  List.insertionSort teleLE ts

/-- Stage 3's consecutive pairs: the sorted teleport rooms, two at a time. -/
def buildPairs (maze : String) : List (Coord × Coord) :=
  pairUp ((sortTeleports (teleportsOf (scanCells maze))).map (·.1))

/-- The grid's occupants after all three stages. -/
def buildItems (maze : String) : List (Coord × Item) :=
  applyPairing (stage1Items (scanCells maze)) (buildPairs maze)

/-- The grid's key set (identical after every stage: no stage inserts or
deletes a cell). -/
def buildKeys (maze : String) : List Coord :=
  (buildItems maze).map (·.1)

/-- `GameBuilder.__init__(maze)`: scan the text into items (stage 1),
connect every room's doors against the completed grid (stage 2; the links
depend only on the key set, which stage 3 does not touch), sort the
collected teleport rooms by label and pair them up consecutively (stage 3).
`self.robot` exists only if a robot marker was scanned, and then sits at the
(last) marked cell. -/
def GameBuilder (maze : String) : Game :=
  { grid := (buildItems maze).map fun pi =>
      (pi.1, { occupant := pi.2, doors := Doors.connect pi.1.1 pi.1.2 (buildKeys maze) })
    robot := (robotPos (scanCells maze)).map fun p => { room := some (.grid p) } }

/-- Key lookup in the stage-1/stage-3 item association list (same discipline
as `lookupRoom`: the grid dict keyed by coordinates). -/
def lookupItem : List (Coord × Item) → Coord → Option Item
  | [], _ => none
  | (q, it) :: rest, p => if p = q then some it else lookupItem rest p

/-- The adjacent coordinate `connect` links in a given direction. -/
def adjCoord (p : Coord) : Urge → Coord
  | .North => (p.1 - 1, p.2)
  | .South => (p.1 + 1, p.2)
  | .East => (p.1, p.2 + 1)
  | .West => (p.1, p.2 - 1)

/-- All coordinates mentioned by a pairing, in order. -/
def flatPairs (ps : List (Coord × Coord)) : List Coord :=
  ps.flatMap fun ab => [ab.1, ab.2]

/-- The partner a pairing assigns to a coordinate (first pair mentioning
it). -/
def assignOf : List (Coord × Coord) → Coord → Option Coord
  | [], _ => none
  | ab :: rest, p =>
    if p = ab.1 then some ab.2
    else if p = ab.2 then some ab.1
    else assignOf rest p

/-- The robot's room after a sequence of moves: `none` when a move crashed
or the builder produced no robot. -/
def robotRoomAfter (game : Game) (us : List Urge) : Option (Option RoomRef) :=
  (game.moves us).bind fun g2 => g2.robot.map (·.room)

/-- The occupant of the grid cell at `p`, when there is one. -/
def occupantAt (game : Game) (p : Coord) : Option Item :=
  (lookupRoom game.grid p).map (·.occupant)

/-- The `target_room` of the teleport occupant at `p`: `none` when `p` is
not a teleport cell, `some none` when the teleport is unpaired. -/
def targetRoomAt (game : Game) (p : Coord) : Option (Option Coord) :=
  match occupantAt game p with
  | some (.Teleport _ tr) => some tr
  | _ => none

/-! ### Lookup lemmas -/

theorem lookupItem_mem {l : List (Coord × Item)} {p : Coord} {it : Item}
    (h : lookupItem l p = some it) : (p, it) ∈ l := by
  induction l with
  | nil => simp [lookupItem] at h
  | cons e rest ih =>
    obtain ⟨q, x⟩ := e
    rw [lookupItem] at h
    by_cases hpq : p = q
    · simp only [if_pos hpq] at h
      cases h
      subst hpq
      exact List.mem_cons_self _ _
    · simp only [if_neg hpq] at h
      exact List.mem_cons_of_mem _ (ih h)

theorem mem_lookupItem {l : List (Coord × Item)} {p : Coord} {it : Item}
    (hmem : (p, it) ∈ l) (hnd : (l.map (·.1)).Nodup) : lookupItem l p = some it := by
  induction l with
  | nil => cases hmem
  | cons e rest ih =>
    obtain ⟨q, x⟩ := e
    simp only [List.map_cons, List.nodup_cons] at hnd
    rw [lookupItem]
    rcases List.mem_cons.1 hmem with heq | htail
    · cases heq
      simp
    · have hpq : p ≠ q := by
        rintro rfl
        exact hnd.1 (List.mem_map.2 ⟨(p, it), htail, rfl⟩)
      rw [if_neg hpq]
      exact ih htail hnd.2

theorem lookupRoom_map_room (items : List (Coord × Item)) (keys : List Coord) (p : Coord) :
    lookupRoom
      (items.map fun pi => (pi.1, { occupant := pi.2, doors := Doors.connect pi.1.1 pi.1.2 keys }))
      p
      = (lookupItem items p).map
          fun it => { occupant := it, doors := Doors.connect p.1 p.2 keys } := by
  induction items with
  | nil => rfl
  | cons e rest ih =>
    obtain ⟨q, x⟩ := e
    rw [List.map_cons, lookupRoom, lookupItem]
    by_cases hpq : p = q
    · subst hpq
      simp
    · rw [if_neg hpq, if_neg hpq, ih]

/-- Looking a coordinate up in the built grid is looking it up among the
stage-3 items, with the stage-2 doors attached. -/
theorem lookupRoom_GameBuilder (maze : String) (p : Coord) :
    lookupRoom (GameBuilder maze).grid p
      = (lookupItem (buildItems maze) p).map
          fun it => { occupant := it, doors := Doors.connect p.1 p.2 (buildKeys maze) } :=
  lookupRoom_map_room _ _ _

theorem occupantAt_GameBuilder (maze : String) (p : Coord) :
    occupantAt (GameBuilder maze) p = lookupItem (buildItems maze) p := by
  rw [occupantAt, lookupRoom_GameBuilder]
  cases lookupItem (buildItems maze) p <;> rfl

/-! ### Effect of teleport pairing on lookups -/

theorem lookupItem_map_val (f : Coord → Item → Item) (l : List (Coord × Item)) (p : Coord) :
    lookupItem (l.map fun e => (e.1, f e.1 e.2)) p = (lookupItem l p).map (f p) := by
  induction l with
  | nil => rfl
  | cons e rest ih =>
    obtain ⟨q, x⟩ := e
    rw [List.map_cons, lookupItem, lookupItem]
    by_cases hpq : p = q
    · subst hpq
      rw [if_pos rfl, if_pos rfl]
      rfl
    · rw [if_neg hpq, if_neg hpq, ih]

theorem setTargetRoom_eq_map_val (g : List (Coord × Item)) (a b : Coord) :
    setTargetRoom g a b
      = g.map fun e => (e.1, if e.1 = a then setTarget b e.2 else e.2) := by
  rw [setTargetRoom]
  have hfun : (fun e : Coord × Item => if e.1 = a then (e.1, setTarget b e.2) else e)
      = fun e : Coord × Item => (e.1, if e.1 = a then setTarget b e.2 else e.2) := by
    funext e
    by_cases h : e.1 = a
    · rw [if_pos h, if_pos h]
    · rw [if_neg h, if_neg h]
  rw [hfun]

theorem lookupItem_setTargetRoom (g : List (Coord × Item)) (a b p : Coord) :
    lookupItem (setTargetRoom g a b) p
      = if p = a then (lookupItem g p).map (setTarget b) else lookupItem g p := by
  rw [setTargetRoom_eq_map_val,
    lookupItem_map_val fun k it => if k = a then setTarget b it else it]
  by_cases hpa : p = a
  · rw [if_pos hpa]
    cases lookupItem g p <;> simp [hpa]
  · rw [if_neg hpa]
    cases lookupItem g p <;> simp [hpa]

theorem applyPairing_cons (g : List (Coord × Item)) (ab : Coord × Coord)
    (ps : List (Coord × Coord)) :
    applyPairing g (ab :: ps)
      = applyPairing (setTargetRoom (setTargetRoom g ab.1 ab.2) ab.2 ab.1) ps := rfl

theorem keys_setTargetRoom (g : List (Coord × Item)) (a b : Coord) :
    (setTargetRoom g a b).map (·.1) = g.map (·.1) := by
  rw [setTargetRoom_eq_map_val, List.map_map]
  rfl

theorem keys_applyPairing (g : List (Coord × Item)) (ps : List (Coord × Coord)) :
    (applyPairing g ps).map (·.1) = g.map (·.1) := by
  induction ps generalizing g with
  | nil => rfl
  | cons ab rest ih =>
    rw [applyPairing_cons, ih, keys_setTargetRoom, keys_setTargetRoom]

theorem assignOf_eq_none {ps : List (Coord × Coord)} {p : Coord}
    (h : p ∉ flatPairs ps) : assignOf ps p = none := by
  induction ps with
  | nil => rfl
  | cons ab rest ih =>
    rw [flatPairs] at h
    simp only [List.flatMap_cons, List.mem_append, List.mem_cons,
      List.not_mem_nil, or_false, not_or] at h
    rw [assignOf, if_neg h.1.1, if_neg h.1.2]
    exact ih (by rw [flatPairs]; exact h.2)

/-- Pointwise effect of stage 3 on the grid items, assuming (as the builder
guarantees) that no coordinate occurs twice among the pairs: the first pair
mentioning `p` decides its final `target_room`; coordinates not mentioned
are untouched. -/
theorem lookupItem_applyPairing (g : List (Coord × Item)) (ps : List (Coord × Coord))
    (p : Coord) (hnd : (flatPairs ps).Nodup) :
    lookupItem (applyPairing g ps) p
      = match assignOf ps p with
        | some q => (lookupItem g p).map (setTarget q)
        | none => lookupItem g p := by
  induction ps generalizing g with
  | nil => rfl
  | cons ab rest ih =>
    obtain ⟨a, b⟩ := ab
    have hflatcons : flatPairs ((a, b) :: rest) = a :: b :: flatPairs rest := rfl
    rw [hflatcons, List.nodup_cons, List.nodup_cons] at hnd
    obtain ⟨ha, hb, hflat⟩ := hnd
    have hab : a ≠ b := fun h => ha (h ▸ List.mem_cons_self _ _)
    have hanr : a ∉ flatPairs rest := fun h => ha (List.mem_cons_of_mem _ h)
    rw [applyPairing_cons, ih _ hflat]
    by_cases hpa : p = a
    · subst hpa
      simp only [assignOf_eq_none hanr, assignOf, if_pos rfl, if_true, eq_self_iff_true]
      rw [lookupItem_setTargetRoom, if_neg hab, lookupItem_setTargetRoom, if_pos rfl]
    · by_cases hpb : p = b
      · subst hpb
        simp only [assignOf_eq_none hb, assignOf, if_neg hpa, if_pos rfl, if_true,
          eq_self_iff_true]
        rw [lookupItem_setTargetRoom, if_pos rfl, lookupItem_setTargetRoom,
          if_neg (Ne.symm hab)]
      · simp only [assignOf, if_neg hpa, if_neg hpb]
        have hset : lookupItem (setTargetRoom (setTargetRoom g a b) b a) p
            = lookupItem g p := by
          rw [lookupItem_setTargetRoom, if_neg hpb, lookupItem_setTargetRoom, if_neg hpa]
        rw [hset]

/-! ### The scan produces pairwise-distinct coordinates -/

theorem mem_rowCells {r : Int} {line : List Char} {c0 : Nat} {y : Coord}
    (hy : y ∈ (line.enumFrom c0).map fun cc => ((r, (cc.1 : Int)) : Coord)) :
    y.1 = r := by
  rcases List.mem_map.1 hy with ⟨cc, _, rfl⟩
  rfl

theorem rowCells_snd_ge {r : Int} {line : List Char} {c0 : Nat} {y : Coord}
    (hy : y ∈ (line.enumFrom c0).map fun cc => ((r, (cc.1 : Int)) : Coord)) :
    (c0 : Int) ≤ y.2 := by
  induction line generalizing c0 with
  | nil => simp at hy
  | cons ch rest ih =>
    rw [List.enumFrom_cons, List.map_cons] at hy
    rcases List.mem_cons.1 hy with rfl | htail
    · simp
    · have h := ih htail
      omega

theorem rowCells_nodup (r : Int) (line : List Char) :
    ∀ c0 : Nat, ((line.enumFrom c0).map fun cc => ((r, (cc.1 : Int)) : Coord)).Nodup := by
  induction line with
  | nil => intro c0; simp
  | cons ch rest ih =>
    intro c0
    rw [List.enumFrom_cons, List.map_cons, List.nodup_cons]
    refine ⟨fun hmem => ?_, ih (c0 + 1)⟩
    have h := rowCells_snd_ge hmem
    simp only at h
    omega

theorem gridCells_fst_ge {lines : List (List Char)} {r0 : Nat} {y : Coord}
    (hy : y ∈ (lines.enumFrom r0).flatMap
      fun rl => rl.2.enum.map fun cc => (((rl.1 : Int), (cc.1 : Int)) : Coord)) :
    (r0 : Int) ≤ y.1 := by
  induction lines generalizing r0 with
  | nil => simp at hy
  | cons line rest ih =>
    rw [List.enumFrom_cons, List.flatMap_cons] at hy
    rcases List.mem_append.1 hy with hrow | hrest
    · have henum : line.enum = line.enumFrom 0 := rfl
      rw [henum] at hrow
      rw [mem_rowCells hrow]
    · have h := ih hrest
      omega

theorem gridCells_nodup (lines : List (List Char)) :
    ∀ r0 : Nat, ((lines.enumFrom r0).flatMap
      fun rl => rl.2.enum.map fun cc => (((rl.1 : Int), (cc.1 : Int)) : Coord)).Nodup := by
  induction lines with
  | nil => intro r0; simp
  | cons line rest ih =>
    intro r0
    rw [List.enumFrom_cons, List.flatMap_cons, List.nodup_append]
    have henum : line.enum = line.enumFrom 0 := rfl
    refine ⟨by rw [henum]; exact rowCells_nodup _ _ 0, ih (r0 + 1), ?_⟩
    intro y hy1 hy2
    rw [henum] at hy1
    have h1 : y.1 = (r0 : Int) := mem_rowCells hy1
    have h2 := gridCells_fst_ge hy2
    omega

theorem scanCells_coords_nodup (maze : String) :
    ((scanCells maze).map (·.1)).Nodup := by
  rw [scanCells, List.map_flatMap]
  have hfun : (fun rl : Nat × List Char =>
        (rl.2.enum.map fun cc => ((((rl.1 : Int), (cc.1 : Int)) : Coord), cc.2)).map (·.1))
      = fun rl : Nat × List Char =>
        rl.2.enum.map fun cc => ((((rl.1 : Int)), ((cc.1 : Int))) : Coord) := by
    funext rl
    rw [List.map_map]
    rfl
  rw [hfun]
  have henum : (splitLines maze.toList).enum = (splitLines maze.toList).enumFrom 0 := rfl
  rw [henum]
  exact gridCells_nodup _ 0

theorem stage1_keys (cells : List (Coord × Char)) :
    (stage1Items cells).map (·.1) = cells.map (·.1) := by
  rw [stage1Items, List.map_map]
  rfl

theorem buildKeys_eq (maze : String) : buildKeys maze = (scanCells maze).map (·.1) := by
  rw [buildKeys, buildItems, keys_applyPairing, stage1_keys]

theorem buildKeys_nodup (maze : String) : (buildKeys maze).Nodup := by
  rw [buildKeys_eq]
  exact scanCells_coords_nodup maze

theorem GameBuilder_keys (maze : String) :
    (GameBuilder maze).grid.map (·.1) = buildKeys maze := by
  rw [GameBuilder, List.map_map]
  rfl

/-! ### Pairing combinatorics -/

theorem flatPairs_cons (ab : Coord × Coord) (ps : List (Coord × Coord)) :
    flatPairs (ab :: ps) = ab.1 :: ab.2 :: flatPairs ps := rfl

theorem flatPairs_pairUp_even :
    ∀ (l : List Coord), l.length % 2 = 0 → flatPairs (pairUp l) = l
  | [], _ => rfl
  | [a], h => by simp at h
  | a :: b :: rest, h => by
    have hr : rest.length % 2 = 0 := by
      simp only [List.length_cons] at h
      omega
    have ih := flatPairs_pairUp_even rest hr
    show a :: b :: flatPairs (pairUp rest) = a :: b :: rest
    rw [ih]

theorem mem_flatPairs {ps : List (Coord × Coord)} {a b : Coord} (h : (a, b) ∈ ps) :
    a ∈ flatPairs ps ∧ b ∈ flatPairs ps := by
  rw [flatPairs]
  exact ⟨List.mem_flatMap.2 ⟨(a, b), h, by simp⟩, List.mem_flatMap.2 ⟨(a, b), h, by simp⟩⟩

theorem assignOf_mem {ps : List (Coord × Coord)} {p q : Coord}
    (h : assignOf ps p = some q) : p ∈ flatPairs ps ∧ q ∈ flatPairs ps := by
  induction ps with
  | nil => cases h
  | cons cd rest ih =>
    rw [flatPairs_cons]
    rw [assignOf] at h
    by_cases h1 : p = cd.1
    · rw [if_pos h1] at h
      cases h
      subst h1
      exact ⟨List.mem_cons_self _ _, List.mem_cons_of_mem _ (List.mem_cons_self _ _)⟩
    · rw [if_neg h1] at h
      by_cases h2 : p = cd.2
      · rw [if_pos h2] at h
        cases h
        subst h2
        exact ⟨List.mem_cons_of_mem _ (List.mem_cons_self _ _), List.mem_cons_self _ _⟩
      · rw [if_neg h2] at h
        have hm := ih h
        exact ⟨List.mem_cons_of_mem _ (List.mem_cons_of_mem _ hm.1),
          List.mem_cons_of_mem _ (List.mem_cons_of_mem _ hm.2)⟩

theorem assignOf_symm {ps : List (Coord × Coord)} (hnd : (flatPairs ps).Nodup)
    {p q : Coord} (h : assignOf ps p = some q) : assignOf ps q = some p := by
  induction ps with
  | nil => cases h
  | cons cd rest ih =>
    obtain ⟨c, d⟩ := cd
    rw [flatPairs_cons, List.nodup_cons, List.nodup_cons] at hnd
    obtain ⟨hc, hd, hflat⟩ := hnd
    have hcd : c ≠ d := fun hcd => hc (hcd ▸ List.mem_cons_self _ _)
    have hcnr : c ∉ flatPairs rest := fun hm => hc (List.mem_cons_of_mem _ hm)
    rw [assignOf] at h
    by_cases hpc : p = c
    · subst hpc
      rw [if_pos rfl] at h
      cases h
      rw [assignOf, if_neg (Ne.symm hcd), if_pos rfl]
    · rw [if_neg hpc] at h
      by_cases hpd : p = d
      · subst hpd
        rw [if_pos rfl] at h
        cases h
        rw [assignOf, if_pos rfl]
      · rw [if_neg hpd] at h
        have hqflat := (assignOf_mem h).2
        have hqc : q ≠ c := fun hqc => hcnr (hqc ▸ hqflat)
        have hqd : q ≠ d := fun hqd => hd (hqd ▸ hqflat)
        rw [assignOf, if_neg hqc, if_neg hqd]
        exact ih hflat h

/-! ### Teleport rooms in the scanned grid -/

theorem item_factory_teleport {ch : Char} {t : Char} {tr : Option Coord}
    (h : item_factory ch = .Teleport t tr) : tr = none := by
  rw [item_factory] at h
  split_ifs at h
  all_goals cases h
  rfl

theorem mem_teleportsOf {cells : List (Coord × Char)} {p : Coord} {t : Char}
    (hmem : (p, t) ∈ teleportsOf cells) :
    ∃ ch, (p, ch) ∈ cells ∧ item_factory ch = .Teleport t none := by
  rw [teleportsOf] at hmem
  rcases List.mem_filterMap.1 hmem with ⟨pc, hpc, hf⟩
  cases hfac : item_factory pc.2 with
  | Teleport t' tr =>
    rw [hfac] at hf
    cases hf
    have htr := item_factory_teleport hfac
    subst htr
    exact ⟨pc.2, by simpa using hpc, hfac⟩
  | _ => rw [hfac] at hf; cases hf

theorem lookupItem_stage1_of_teleport {cells : List (Coord × Char)} {p : Coord} {t : Char}
    (hnd : (cells.map (·.1)).Nodup) (hmem : (p, t) ∈ teleportsOf cells) :
    lookupItem (stage1Items cells) p = some (.Teleport t none) := by
  rcases mem_teleportsOf hmem with ⟨ch, hcell, hfac⟩
  have hmem1 : (p, (Item.Teleport t none : Item)) ∈ stage1Items cells := by
    rw [stage1Items]
    refine List.mem_map.2 ⟨(p, ch), hcell, ?_⟩
    rw [hfac]
  refine mem_lookupItem hmem1 ?_
  rw [stage1_keys]
  exact hnd

theorem flatPairs_pairUp_sublist : ∀ l : List Coord, flatPairs (pairUp l) <+ l
  | [] => List.Sublist.refl _
  | [a] => List.nil_sublist _
  | a :: b :: rest => by
    have ih := flatPairs_pairUp_sublist rest
    show a :: b :: flatPairs (pairUp rest) <+ a :: b :: rest
    exact (ih.cons₂ b).cons₂ a

theorem teleports_coords_sublist (cells : List (Coord × Char)) :
    (teleportsOf cells).map (·.1) <+ cells.map (·.1) := by
  induction cells with
  | nil => exact List.Sublist.refl _
  | cons pc rest ih =>
    rw [teleportsOf, List.filterMap_cons, List.map_cons]
    rw [teleportsOf] at ih
    cases hm : (match item_factory pc.2 with
        | Item.Teleport t _ => some (pc.1, t)
        | _ => none) with
    | none => exact ih.cons pc.1
    | some v =>
      have hv1 : v.1 = pc.1 := by
        cases hfac : item_factory pc.2
        all_goals simp only [hfac] at hm
        all_goals cases hm
        rfl
      rw [List.map_cons, hv1]
      exact ih.cons₂ pc.1

theorem sortTeleports_perm (ts : List (Coord × Char)) : sortTeleports ts ~ ts :=
  List.perm_insertionSort teleLE ts

theorem buildPairs_flat_nodup (maze : String) : (flatPairs (buildPairs maze)).Nodup := by
  rw [buildPairs]
  have hnd : (((sortTeleports (teleportsOf (scanCells maze))).map (·.1))).Nodup := by
    have hperm := (sortTeleports_perm (teleportsOf (scanCells maze))).map (·.1)
    refine hperm.nodup_iff.2 ?_
    exact ((teleports_coords_sublist (scanCells maze)).nodup (scanCells_coords_nodup maze))
  exact hnd.sublist (flatPairs_pairUp_sublist _)

theorem assignOf_of_mem {ps : List (Coord × Coord)} {a b : Coord}
    (hnd : (flatPairs ps).Nodup) (hmem : (a, b) ∈ ps) :
    assignOf ps a = some b ∧ assignOf ps b = some a := by
  induction ps with
  | nil => cases hmem
  | cons cd rest ih =>
    obtain ⟨c, d⟩ := cd
    rw [flatPairs_cons, List.nodup_cons, List.nodup_cons] at hnd
    obtain ⟨hc, hd, hflat⟩ := hnd
    have hcd : c ≠ d := fun h => hc (h ▸ List.mem_cons_self _ _)
    have hcnr : c ∉ flatPairs rest := fun h => hc (List.mem_cons_of_mem _ h)
    rcases List.mem_cons.1 hmem with heq | ht
    · injection heq with h1 h2
      subst h1
      subst h2
      constructor
      · rw [assignOf, if_pos rfl]
      · rw [assignOf, if_neg (Ne.symm hcd), if_pos rfl]
    · have hmf := mem_flatPairs ht
      have hac : a ≠ c := fun h => hcnr (h ▸ hmf.1)
      have had : a ≠ d := fun h => hd (h ▸ hmf.1)
      have hbc : b ≠ c := fun h => hcnr (h ▸ hmf.2)
      have hbd : b ≠ d := fun h => hd (h ▸ hmf.2)
      have hr := ih hflat ht
      constructor
      · rw [assignOf, if_neg hac, if_neg had]
        exact hr.1
      · rw [assignOf, if_neg hbc, if_neg hbd]
        exact hr.2

theorem stage1_teleport_unpaired {cells : List (Coord × Char)} {p : Coord} {t : Char}
    {tr : Option Coord}
    (h : lookupItem (stage1Items cells) p = some (.Teleport t tr)) : tr = none := by
  have hm := lookupItem_mem h
  rw [stage1Items] at hm
  rcases List.mem_map.1 hm with ⟨pc, _, heq⟩
  have h2 := congrArg Prod.snd heq
  simp only at h2
  cases hfac : item_factory pc.2
  all_goals simp only [hfac] at h2
  · cases h2
  · cases h2
  · cases h2
  · injection h2 with h3 h4
    rw [← h4]
    exact item_factory_teleport hfac
  · cases h2
  · cases h2
  · cases h2

/-- A coordinate mentioned by the builder's pairs is a teleport cell of the
scan. -/
theorem mem_buildPairs_flat {maze : String} {p : Coord}
    (h : p ∈ flatPairs (buildPairs maze)) :
    ∃ t, (p, t) ∈ teleportsOf (scanCells maze) := by
  rw [buildPairs] at h
  have hmem : p ∈ (sortTeleports (teleportsOf (scanCells maze))).map (·.1) :=
    (flatPairs_pairUp_sublist _).mem h
  rcases List.mem_map.1 hmem with ⟨pt, hpt, rfl⟩
  have hts : pt ∈ teleportsOf (scanCells maze) :=
    (sortTeleports_perm _).mem_iff.1 hpt
  exact ⟨pt.2, hts⟩

/-- The built grid's `target_room` assignments are exactly the
`assignOf`-partners of the builder's consecutive pairs. -/
theorem targetRoomAt_GameBuilder {maze : String} {p B : Coord} :
    targetRoomAt (GameBuilder maze) p = some (some B) ↔
      assignOf (buildPairs maze) p = some B := by
  have hchar := lookupItem_applyPairing (stage1Items (scanCells maze)) (buildPairs maze) p
    (buildPairs_flat_nodup maze)
  rw [targetRoomAt, occupantAt_GameBuilder, buildItems, hchar]
  constructor
  · intro h
    cases han : assignOf (buildPairs maze) p with
    | none =>
      rw [han] at h
      cases hs : lookupItem (stage1Items (scanCells maze)) p with
      | none => rw [hs] at h; cases h
      | some it =>
        rw [hs] at h
        cases it with
        | Teleport t tr =>
          have := stage1_teleport_unpaired hs
          subst this
          cases h
        | Robot => cases h
        | Wall => cases h
        | Food => cases h
        | Empty => cases h
        | Edge => cases h
        | EndGame => cases h
    | some q =>
      rw [han] at h
      cases hs : lookupItem (stage1Items (scanCells maze)) p with
      | none => rw [hs] at h; cases h
      | some it =>
        rw [hs] at h
        cases it with
        | Teleport t tr =>
          simp only [Option.map_some, setTarget] at h
          cases h
          rfl
        | Robot => simp only [Option.map_some, setTarget] at h; cases h
        | Wall => simp only [Option.map_some, setTarget] at h; cases h
        | Food => simp only [Option.map_some, setTarget] at h; cases h
        | Empty => simp only [Option.map_some, setTarget] at h; cases h
        | Edge => simp only [Option.map_some, setTarget] at h; cases h
        | EndGame => simp only [Option.map_some, setTarget] at h; cases h
  · intro h
    rw [h]
    have hp : p ∈ flatPairs (buildPairs maze) := (assignOf_mem h).1
    rcases mem_buildPairs_flat hp with ⟨t, hts⟩
    rw [lookupItem_stage1_of_teleport (scanCells_coords_nodup maze) hts]
    rfl

/-- Entering a paired teleport room relocates the robot to the pair's other
end and leaves the grid untouched. -/
theorem enter_teleport {maze : String} {A B : Coord} (cur : Option RoomRef)
    (h : targetRoomAt (GameBuilder maze) A = some (some B)) :
    (GameBuilder maze).enterRoom cur (.grid A)
      = some (some (.grid B), (GameBuilder maze).grid) := by
  rw [targetRoomAt] at h
  cases hl : lookupRoom (GameBuilder maze).grid A with
  | none =>
    rw [occupantAt, hl] at h
    cases h
  | some room =>
    have ho : occupantAt (GameBuilder maze) A = some room.occupant := by
      rw [occupantAt, hl]
      rfl
    rw [ho] at h
    rw [Game.enterRoom, hl]
    cases hocc : room.occupant
    all_goals simp only [hocc] at h
    all_goals cases h
    show some (room.occupant.interact cur (RoomRef.grid A) (GameBuilder maze).grid)
      = some (some (RoomRef.grid B), (GameBuilder maze).grid)
    rw [hocc]
    rfl

/-- C1: after GameBuilder construction from a maze with an even number of
teleport cells, teleport pairing is symmetric (A's `target_room` is B iff
B's `target_room` is A) and entering either endpoint relocates the robot to
the other, leaving the grid unchanged (round trip). -/
theorem C1_teleport_pairing_symmetric_roundtrip (maze : String)
    (heven : (teleportsOf (scanCells maze)).length % 2 = 0) :
    ∀ A B : Coord,
      (targetRoomAt (GameBuilder maze) A = some (some B) ↔
        targetRoomAt (GameBuilder maze) B = some (some A)) ∧
      (targetRoomAt (GameBuilder maze) A = some (some B) →
        ∀ cur cur2 : Option RoomRef,
          (GameBuilder maze).enterRoom cur (.grid A)
            = some (some (.grid B), (GameBuilder maze).grid) ∧
          (GameBuilder maze).enterRoom cur2 (.grid B)
            = some (some (.grid A), (GameBuilder maze).grid)) := by
  have hsymm : ∀ X Y : Coord,
      targetRoomAt (GameBuilder maze) X = some (some Y) →
      targetRoomAt (GameBuilder maze) Y = some (some X) := fun X Y h =>
    targetRoomAt_GameBuilder.2
      (assignOf_symm (buildPairs_flat_nodup maze) (targetRoomAt_GameBuilder.1 h))
  intro A B
  exact ⟨⟨hsymm A B, hsymm B A⟩,
    fun h cur cur2 => ⟨enter_teleport cur h, enter_teleport cur2 (hsymm A B h)⟩⟩

/-- Witness for C1 on the two-teleport maze `"aa"`: the rooms at `(0, 0)`
and `(0, 1)` are mutually paired and entering either relocates to the
other. -/
theorem C1_witness :
    (targetRoomAt (GameBuilder "aa") (0, 0) = some (some (0, 1)) ↔
      targetRoomAt (GameBuilder "aa") (0, 1) = some (some (0, 0))) ∧
    ((GameBuilder "aa").enterRoom none (.grid (0, 0))
        = some (some (.grid (0, 1)), (GameBuilder "aa").grid) ∧
      (GameBuilder "aa").enterRoom none (.grid (0, 1))
        = some (some (.grid (0, 0)), (GameBuilder "aa").grid)) :=
  ⟨(C1_teleport_pairing_symmetric_roundtrip "aa" (by decide) (0, 0) (0, 1)).1,
    (C1_teleport_pairing_symmetric_roundtrip "aa" (by decide) (0, 0) (0, 1)).2
      (by decide) none none⟩

/-- Items on which a `target_room` assignment is a no-op (every
non-teleport) keep their lookup through all of stage 3. -/
theorem lookupItem_applyPairing_of_fixed {g : List (Coord × Item)}
    {ps : List (Coord × Coord)} {p : Coord} {it : Item}
    (h : lookupItem g p = some it) (hpres : ∀ q, setTarget q it = it) :
    lookupItem (applyPairing g ps) p = some it := by
  induction ps generalizing g with
  | nil => exact h
  | cons ab rest ih =>
    rw [applyPairing_cons]
    apply ih
    rw [lookupItem_setTargetRoom, lookupItem_setTargetRoom]
    have hinner : (if p = ab.1
        then (lookupItem g p).map (setTarget ab.2) else lookupItem g p) = some it := by
      by_cases h2 : p = ab.1
      · rw [if_pos h2, h]
        simp [hpres]
      · rw [if_neg h2]
        exact h
    by_cases h1 : p = ab.2
    · rw [if_pos h1, hinner]
      simp [hpres]
    · rw [if_neg h1]
      exact hinner

/-- C2 evaluated on the code: in the maze `"Ra"` the single teleport `'a'`
at `(0, 1)` is unpaired; moving the robot east onto it sets `robot.room` to
`None` (not the robot's current room), and the following move crashes
(`AttributeError` on `None`), contradicting the claimed wall-like failure
mode. -/
theorem C2_unpaired_teleport_nulls_robot :
    (GameBuilder "Ra").move .East
      = some { grid := (GameBuilder "Ra").grid, robot := some { room := none } } ∧
    (GameBuilder "Ra").moves [.East, .East] = none := by decide

/-- C5: on the maze `"R_.\n#_."` with the robot starting at `(0, 0)`, the
moves East, East (eating the food at `(0, 2)`), South, West, North visit
`(0, 1)`, `(0, 2)`, `(1, 2)`, `(1, 1)`, `(0, 1)`; and a single South from
the start is blocked by the wall at `(1, 0)`. -/
theorem C5_example_maze_path :
    robotRoomAfter (GameBuilder "R_.\n#_.") [] = some (some (.grid (0, 0))) ∧
    robotRoomAfter (GameBuilder "R_.\n#_.") [.East] = some (some (.grid (0, 1))) ∧
    robotRoomAfter (GameBuilder "R_.\n#_.") [.East, .East]
      = some (some (.grid (0, 2))) ∧
    ((GameBuilder "R_.\n#_.").moves [.East, .East]).map (fun g => occupantAt g (0, 2))
      = some (some .Empty) ∧
    robotRoomAfter (GameBuilder "R_.\n#_.") [.East, .East, .South]
      = some (some (.grid (1, 2))) ∧
    robotRoomAfter (GameBuilder "R_.\n#_.") [.East, .East, .South, .West]
      = some (some (.grid (1, 1))) ∧
    robotRoomAfter (GameBuilder "R_.\n#_.") [.East, .East, .South, .West, .North]
      = some (some (.grid (0, 1))) ∧
    robotRoomAfter (GameBuilder "R_.\n#_.") [.South] = some (some (.grid (0, 0))) := by
  decide

/-- C9 counterexample: building from the maze `"_"`, which has no robot
marker, leaves the builder without any robot (`self.robot` is never
assigned), not a robot parked at the edge sentinel as the claim states. -/
theorem C9_counterexample :
    (GameBuilder "_").robot = none ∧
    (GameBuilder "_").robot ≠ some { room := some RoomRef.edge } := by decide

/-- C9 amended: when no robot-marker character is scanned, `GameBuilder`
never assigns `self.robot` at all (accessing it raises), rather than
defaulting the robot's room to the edge sentinel; when the marker is
present, the marked cell is created with an `Empty` occupant and the robot
starts at that room. -/
theorem C9_amended_robot_placement (maze : String) :
    (robotPos (scanCells maze) = none → (GameBuilder maze).robot = none) ∧
    (∀ p : Coord, robotPos (scanCells maze) = some p →
      (GameBuilder maze).robot = some { room := some (.grid p) } ∧
      occupantAt (GameBuilder maze) p = some .Empty) := by
  constructor
  · intro h
    rw [GameBuilder, h]
    rfl
  · intro p hp
    refine ⟨by rw [GameBuilder, hp]; rfl, ?_⟩
    rw [robotPos] at hp
    cases hlast : (scanCells maze).filter (fun pc => item_factory pc.2 = .Robot)
        |>.getLast? with
    | none => rw [hlast] at hp; cases hp
    | some pc =>
      rw [hlast] at hp
      cases hp
      have hmem := List.mem_of_getLast?_eq_some hlast
      rw [List.mem_filter] at hmem
      have hfac : item_factory pc.2 = .Robot := by
        have := hmem.2
        exact of_decide_eq_true this
      have hmem1 : (pc.1, Item.Empty) ∈ stage1Items (scanCells maze) := by
        rw [stage1Items]
        refine List.mem_map.2 ⟨pc, hmem.1, ?_⟩
        rw [hfac]
      have hs1 : lookupItem (stage1Items (scanCells maze)) pc.1 = some .Empty := by
        refine mem_lookupItem hmem1 ?_
        rw [stage1_keys]
        exact scanCells_coords_nodup maze
      rw [occupantAt_GameBuilder, buildItems]
      exact lookupItem_applyPairing_of_fixed hs1 (fun q => rfl)

theorem lookupRoom_map_val (f : Coord → Room → Room) (l : Grid) (p : Coord) :
    lookupRoom (l.map fun e => (e.1, f e.1 e.2)) p = (lookupRoom l p).map (f p) := by
  induction l with
  | nil => rfl
  | cons e rest ih =>
    obtain ⟨q, x⟩ := e
    rw [List.map_cons, lookupRoom, lookupRoom]
    by_cases hpq : p = q
    · subst hpq
      rw [if_pos rfl, if_pos rfl]
      rfl
    · rw [if_neg hpq, if_neg hpq, ih]

theorem updateOccupant_grid (g : Grid) (p : Coord) (it : Item) :
    updateOccupant g (.grid p) it
      = g.map fun e => (e.1, if e.1 = p then { e.2 with occupant := it } else e.2) := by
  have hfun : (fun e : Coord × Room => if e.1 = p then (e.1, { e.2 with occupant := it }) else e)
      = fun e : Coord × Room => (e.1, if e.1 = p then { e.2 with occupant := it } else e.2) := by
    funext e
    by_cases h : e.1 = p
    · rw [if_pos h, if_pos h]
    · rw [if_neg h, if_neg h]
  show (g.map fun e => if e.1 = p then (e.1, { e.2 with occupant := it }) else e) = _
  rw [hfun]

theorem lookupRoom_updateOccupant (g : Grid) (p q : Coord) (it : Item) :
    lookupRoom (updateOccupant g (.grid p) it) q
      = if q = p then (lookupRoom g q).map (fun r => { r with occupant := it })
        else lookupRoom g q := by
  rw [updateOccupant_grid,
    lookupRoom_map_val fun k r => if k = p then { r with occupant := it } else r]
  by_cases h : q = p
  · rw [if_pos h]
    cases lookupRoom g q <;> simp [h]
  · rw [if_neg h]
    cases lookupRoom g q <;> simp [h]

/-- C3: moving toward a neighboring Wall room or toward the edge sentinel
leaves the whole game state (robot room reference and grid) exactly
unchanged, and repeating the move is the same no-op. -/
theorem C3_wall_edge_noop (g : Game) (robot : Robot) (p : Coord) (room : Room) (u : Urge)
    (hr : g.robot = some robot) (hrm : robot.room = some (.grid p))
    (hlk : lookupRoom g.grid p = some room)
    (hblock : room.doors.openDoor (some u) = .edge ∨
      ∃ q wr, room.doors.openDoor (some u) = .grid q ∧
        lookupRoom g.grid q = some wr ∧ wr.occupant = .Wall) :
    g.move u = some g ∧ ((g.move u).bind fun g2 => g2.move u) = some g := by
  have hmv : g.move u = some g := by
    simp only [Game.move, hr, hrm, hlk]
    rcases hblock with he | ⟨q, wr, hq, hlq, hw⟩
    · rw [he]
      simp only [Game.enterRoom, Item.interact]
      have hrob : ({ room := some (.grid p) } : Robot) = robot := by
        rw [← hrm]
      rw [hrob, ← hr]
    · rw [hq]
      simp only [Game.enterRoom, hlq, hw, Item.interact]
      have hrob : ({ room := some (.grid p) } : Robot) = robot := by
        rw [← hrm]
      rw [hrob, ← hr]
  refine ⟨hmv, ?_⟩
  rw [hmv]
  exact hmv

/-- Witness for C3 on the example maze: from the start `(0, 0)` a South
move is blocked by the wall at `(1, 0)` and the game is unchanged. -/
theorem C3_witness :
    (GameBuilder "R_.\n#_.").move .South = some (GameBuilder "R_.\n#_.") ∧
    (((GameBuilder "R_.\n#_.").move .South).bind fun g2 => g2.move .South)
      = some (GameBuilder "R_.\n#_.") :=
  C3_wall_edge_noop (GameBuilder "R_.\n#_.") { room := some (.grid (0, 0)) } (0, 0)
    { occupant := .Empty,
      doors := { north := .edge, south := .grid (1, 0), east := .grid (0, 1), west := .edge } }
    .South (by decide) rfl (by decide)
    (Or.inr ⟨(1, 0),
      { occupant := .Wall,
        doors := { north := .grid (0, 0), south := .edge, east := .grid (1, 1), west := .edge } },
      rfl, by decide, rfl⟩)

/-- C4: entering a Food room consumes the food exactly once — the robot
comes to occupy the room, that room's occupant becomes `Empty`, no other
cell changes, and a second entry of the same (now empty) room is ordinary
passable movement with no further occupant change. -/
theorem C4_food_consumed_once (g : Game) (p : Coord) (room : Room)
    (cur cur2 : Option RoomRef)
    (hlk : lookupRoom g.grid p = some room) (hfood : room.occupant = .Food) :
    g.enterRoom cur (.grid p)
      = some (some (.grid p), updateOccupant g.grid (.grid p) .Empty) ∧
    lookupRoom (updateOccupant g.grid (.grid p) .Empty) p
      = some { occupant := .Empty, doors := room.doors } ∧
    (∀ q : Coord, q ≠ p →
      lookupRoom (updateOccupant g.grid (.grid p) .Empty) q = lookupRoom g.grid q) ∧
    Game.enterRoom { grid := updateOccupant g.grid (.grid p) .Empty, robot := g.robot }
        cur2 (.grid p)
      = some (some (.grid p), updateOccupant g.grid (.grid p) .Empty) := by
  have h2 : lookupRoom (updateOccupant g.grid (.grid p) .Empty) p
      = some { occupant := .Empty, doors := room.doors } := by
    rw [lookupRoom_updateOccupant, if_pos rfl, hlk]
    rfl
  refine ⟨?_, h2, ?_, ?_⟩
  · rw [Game.enterRoom, hlk]
    show some (room.occupant.interact cur (.grid p) g.grid) = _
    rw [hfood]
    rfl
  · intro q hq
    rw [lookupRoom_updateOccupant, if_neg hq]
  · rw [Game.enterRoom]
    show (match lookupRoom (updateOccupant g.grid (.grid p) .Empty) p with
      | none => none
      | some room => some (room.occupant.interact cur2 (RoomRef.grid p)
          (updateOccupant g.grid (.grid p) .Empty)))
      = some (some (.grid p), updateOccupant g.grid (.grid p) .Empty)
    rw [h2]
    rfl

/-- Witness for C4 on the maze `"R."`: the food at `(0, 1)` is eaten on
first entry and the cell then behaves as empty. -/
theorem C4_witness :
    (GameBuilder "R.").enterRoom none (.grid (0, 1))
      = some (some (.grid (0, 1)), updateOccupant (GameBuilder "R.").grid (.grid (0, 1)) .Empty) ∧
    lookupRoom (updateOccupant (GameBuilder "R.").grid (.grid (0, 1)) .Empty) (0, 1)
      = some (Room.mk .Empty (Doors.mk .edge .edge .edge (.grid (0, 0)))) ∧
    lookupRoom (updateOccupant (GameBuilder "R.").grid (.grid (0, 1)) .Empty) (0, 0)
      = lookupRoom (GameBuilder "R.").grid (0, 0) ∧
    Game.enterRoom
        { grid := updateOccupant (GameBuilder "R.").grid (.grid (0, 1)) .Empty,
          robot := (GameBuilder "R.").robot } none (.grid (0, 1))
      = some (some (.grid (0, 1)), updateOccupant (GameBuilder "R.").grid (.grid (0, 1)) .Empty) := by
  have h := C4_food_consumed_once (GameBuilder "R.") (0, 1)
    (Room.mk .Food (Doors.mk .edge .edge .edge (.grid (0, 0))))
    none none (by decide) rfl
  exact ⟨h.1, h.2.1, h.2.2.1 (0, 0) (by decide), h.2.2.2⟩

/-- C7: `Doors.open` is a total function — each of the four urges returns
the stored link, any unrecognized direction value returns an edge room —
and in every built grid each room's four links resolve adjacent coordinates
through the grid with the edge sentinel as default, while entering the edge
sentinel always returns the robot to its prior room. -/
theorem C7_doors_total_edge_safe :
    (∀ d : Doors, d.openDoor (some .North) = d.north ∧ d.openDoor (some .South) = d.south ∧
      d.openDoor (some .East) = d.east ∧ d.openDoor (some .West) = d.west ∧
      d.openDoor none = .edge) ∧
    (∀ (maze : String) (p : Coord) (room : Room),
      lookupRoom (GameBuilder maze).grid p = some room →
      ∀ u : Urge, room.doors.openDoor (some u)
        = if adjCoord p u ∈ (GameBuilder maze).grid.map (·.1)
          then .grid (adjCoord p u) else .edge) ∧
    (∀ (g : Game) (cur : Option RoomRef), g.enterRoom cur .edge = some (cur, g.grid)) := by
  refine ⟨fun d => ⟨rfl, rfl, rfl, rfl, rfl⟩, ?_, fun g cur => rfl⟩
  intro maze p room hlk u
  rw [lookupRoom_GameBuilder] at hlk
  cases hli : lookupItem (buildItems maze) p with
  | none => rw [hli] at hlk; cases hlk
  | some it =>
    rw [hli] at hlk
    have hroom : room
        = { occupant := it, doors := Doors.connect p.1 p.2 (buildKeys maze) } :=
      (Option.some.inj hlk).symm
    rw [hroom, GameBuilder_keys]
    cases u
    all_goals rfl

/-- Witness for C7 on the one-cell maze `"R"`: opening East from `(0, 0)`
resolves the absent neighbor `(0, 1)` to the edge sentinel, an unrecognized
direction opens to an edge room, and entering the sentinel returns the
prior room. -/
theorem C7_witness :
    (Doors.mk .edge .edge .edge .edge).openDoor none = .edge ∧
    (Room.mk .Empty (Doors.mk .edge .edge .edge .edge)).doors.openDoor (some .East)
      = (if adjCoord (0, 0) .East ∈ (GameBuilder "R").grid.map (·.1)
          then .grid (adjCoord (0, 0) .East) else .edge) ∧
    (GameBuilder "R").enterRoom (some (.grid (0, 0))) .edge
      = some (some (.grid (0, 0)), (GameBuilder "R").grid) :=
  ⟨(C7_doors_total_edge_safe.1 (Doors.mk .edge .edge .edge .edge)).2.2.2.2,
    C7_doors_total_edge_safe.2.1 "R" (0, 0)
      (Room.mk .Empty (Doors.mk .edge .edge .edge .edge)) (by decide) .East,
    C7_doors_total_edge_safe.2.2 (GameBuilder "R") (some (.grid (0, 0)))⟩

theorem setTarget_ne_robot {q : Coord} {it : Item} (h : setTarget q it = .Robot) :
    it = .Robot := by
  cases it
  case Robot => rfl
  all_goals cases h

theorem lookupItem_stage1_not_robot {cells : List (Coord × Char)} {p : Coord}
    (h : lookupItem (stage1Items cells) p = some .Robot) : False := by
  have hm := lookupItem_mem h
  rw [stage1Items] at hm
  rcases List.mem_map.1 hm with ⟨pc, _, heq⟩
  have h2 : (match item_factory pc.2 with
      | Item.Robot => Item.Empty
      | it => it) = Item.Robot := congrArg Prod.snd heq
  cases hfac : item_factory pc.2
  all_goals simp only [hfac] at h2
  all_goals cases h2

/-- C8 counterexample: a room occupied by the robot-start marker does not
behave like a Wall — `interact` is the inherited base `Item.interact`,
which returns `None`, not the robot's current room `(0, 0)`. -/
theorem C8_counterexample :
    Game.enterRoom
        (Game.mk [((0, 1), Room.mk .Robot (Doors.mk .edge .edge .edge .edge))]
          (some (Robot.mk (some (.grid (0, 0))))))
        (some (.grid (0, 0))) (.grid (0, 1))
      = some (none, [((0, 1), Room.mk .Robot (Doors.mk .edge .edge .edge .edge))]) ∧
    (none : Option RoomRef) ≠ some (.grid (0, 0)) := by decide

/-- C8 amended: a built grid never contains a robot-marker occupant (the
marker cell is created `Empty`), and if a robot-marker room is constructed
directly, its `interact` is the inherited base method returning `None` —
nulling the robot's room reference — rather than Wall behavior. -/
theorem C8_amended_marker_interact (maze : String) (p : Coord) :
    occupantAt (GameBuilder maze) p ≠ some .Robot ∧
    (∀ (cur : Option RoomRef) (target : RoomRef) (g : Grid),
      Item.Robot.interact cur target g = (none, g)) := by
  refine ⟨?_, fun cur target g => rfl⟩
  intro hcontra
  rw [occupantAt_GameBuilder, buildItems,
    lookupItem_applyPairing _ _ _ (buildPairs_flat_nodup maze)] at hcontra
  cases han : assignOf (buildPairs maze) p with
  | none =>
    rw [han] at hcontra
    exact lookupItem_stage1_not_robot hcontra
  | some q =>
    rw [han] at hcontra
    cases hs : lookupItem (stage1Items (scanCells maze)) p with
    | none => rw [hs] at hcontra; cases hcontra
    | some it =>
      rw [hs] at hcontra
      have h2 : setTarget q it = Item.Robot := Option.some.inj hcontra
      have h3 : it = Item.Robot := setTarget_ne_robot h2
      rw [h3] at hs
      exact lookupItem_stage1_not_robot hs

/-- Witness for C8: in the built maze `"R#"` no cell holds the robot
marker (the marked cell became `Empty`), and the marker item's `interact`
returns `None` at concrete arguments. -/
theorem C8_witness :
    occupantAt (GameBuilder "R#") (0, 0) ≠ some .Robot ∧
    Item.Robot.interact (some (.grid (0, 0))) (.grid (0, 1)) [] = (none, []) :=
  ⟨(C8_amended_marker_interact "R#" (0, 0)).1,
    (C8_amended_marker_interact "R#" (0, 0)).2 (some (.grid (0, 0))) (.grid (0, 1)) []⟩

/-- Witness for C9: `"_"` (no marker) yields no robot at all, while in
`"R_"` the robot starts at `(0, 0)` whose occupant is `Empty`. -/
theorem C9_witness :
    (GameBuilder "_").robot = none ∧
    ((GameBuilder "R_").robot = some (Robot.mk (some (.grid (0, 0)))) ∧
      occupantAt (GameBuilder "R_") (0, 0) = some .Empty) :=
  ⟨(C9_amended_robot_placement "_").1 (by decide),
    (C9_amended_robot_placement "R_").2 (0, 0) (by decide)⟩

theorem pairUp_getElem :
    ∀ (l : List Coord) (i : Nat) (a b : Coord),
      l[2 * i]? = some a → l[2 * i + 1]? = some b → (a, b) ∈ pairUp l
  | [], _, _, _, h1, _ => by simp at h1
  | [x], i, a, b, _, h2 => by
    rw [show 2 * i + 1 = i + i + 1 from by ring] at h2
    simp [List.getElem?_cons_succ] at h2
  | x :: y :: rest, 0, a, b, h1, h2 => by
    simp only [Nat.mul_zero, List.getElem?_cons_zero, List.getElem?_cons_succ,
      Option.some.injEq] at h1 h2
    subst h1
    subst h2
    exact List.mem_cons_self _ _
  | x :: y :: rest, i + 1, a, b, h1, h2 => by
    rw [show 2 * (i + 1) = (2 * i + 1) + 1 from by ring] at h1
    rw [List.getElem?_cons_succ, List.getElem?_cons_succ] at h1
    rw [show 2 * (i + 1) + 1 = ((2 * i + 1) + 1) + 1 from by ring] at h2
    rw [List.getElem?_cons_succ, List.getElem?_cons_succ] at h2
    exact List.mem_cons_of_mem _ (pairUp_getElem rest i a b h1 h2)

/-- Stability of the teleport sort: within one label, the sorted order is
the row-major collection order. -/
theorem filter_sortTeleports (ts : List (Coord × Char)) (c : Char) :
    (sortTeleports ts).filter (fun e => e.2 == c) = ts.filter (fun e => e.2 == c) := by
  have hpair : (ts.filter (fun e => e.2 == c)).Pairwise teleLE := by
    apply List.pairwise_of_forall_mem_list
    intro a ha b hb
    rw [List.mem_filter] at ha hb
    have ha2 : a.2 = c := by simpa using ha.2
    have hb2 : b.2 = c := by simpa using hb.2
    rw [teleLE, ha2, hb2]
  have hsub : ts.filter (fun e => e.2 == c) <+ sortTeleports ts := by
    rw [sortTeleports]
    exact List.sublist_insertionSort hpair (List.filter_sublist ts)
  have hsub2 : ts.filter (fun e => e.2 == c)
      <+ (sortTeleports ts).filter (fun e => e.2 == c) := by
    have h3 := hsub.filter (fun e => e.2 == c)
    have heq : ((ts.filter fun e => e.2 == c).filter fun e => e.2 == c)
        = ts.filter fun e => e.2 == c := by
      rw [List.filter_filter]
      congr 1
      funext e
      rw [Bool.and_self]
    rwa [heq] at h3
  have hperm : (sortTeleports ts).filter (fun e => e.2 == c)
      ~ ts.filter (fun e => e.2 == c) :=
    (sortTeleports_perm ts).filter _
  exact (hsub2.eq_of_length hperm.length_eq.symm).symm

/-- C6: the teleport rooms are sorted ascending by target label with a
stable sort over row-major collection order (so same-label rooms keep their
scan order), and the built game pairs consecutive rooms of the sorted
sequence two at a time. -/
theorem C6_pairing_deterministic (maze : String) :
    Sorted teleLE (sortTeleports (teleportsOf (scanCells maze))) ∧
    sortTeleports (teleportsOf (scanCells maze)) ~ teleportsOf (scanCells maze) ∧
    (∀ c : Char,
      (sortTeleports (teleportsOf (scanCells maze))).filter (fun e => e.2 == c)
        = (teleportsOf (scanCells maze)).filter (fun e => e.2 == c)) ∧
    (∀ (i : Nat) (a b : Coord × Char),
      (sortTeleports (teleportsOf (scanCells maze)))[2 * i]? = some a →
      (sortTeleports (teleportsOf (scanCells maze)))[2 * i + 1]? = some b →
      targetRoomAt (GameBuilder maze) a.1 = some (some b.1) ∧
      targetRoomAt (GameBuilder maze) b.1 = some (some a.1)) := by
  refine ⟨?_, sortTeleports_perm _, fun c => filter_sortTeleports _ c, ?_⟩
  · rw [sortTeleports]
    exact List.sorted_insertionSort teleLE _
  · intro i a b h1 h2
    have hm1 : ((sortTeleports (teleportsOf (scanCells maze))).map (·.1))[2 * i]?
        = some a.1 := by
      rw [List.getElem?_map, h1]
      rfl
    have hm2 : ((sortTeleports (teleportsOf (scanCells maze))).map (·.1))[2 * i + 1]?
        = some b.1 := by
      rw [List.getElem?_map, h2]
      rfl
    have hmem : (a.1, b.1) ∈ buildPairs maze := by
      rw [buildPairs]
      exact pairUp_getElem _ i a.1 b.1 hm1 hm2
    have has := assignOf_of_mem (buildPairs_flat_nodup maze) hmem
    exact ⟨targetRoomAt_GameBuilder.2 has.1, targetRoomAt_GameBuilder.2 has.2⟩

/-- Witness for C6 on the maze `"baab"`: labels sort to `a, a, b, b`, the
two `'b'` rooms keep scan order, and the first sorted pair `(0, 1), (0, 2)`
is mutually linked in the built game. -/
theorem C6_witness :
    Sorted teleLE (sortTeleports (teleportsOf (scanCells "baab"))) ∧
    ((sortTeleports (teleportsOf (scanCells "baab"))).filter (fun e => e.2 == 'b')
      = (teleportsOf (scanCells "baab")).filter (fun e => e.2 == 'b')) ∧
    (targetRoomAt (GameBuilder "baab") (0, 1) = some (some (0, 2)) ∧
      targetRoomAt (GameBuilder "baab") (0, 2) = some (some (0, 1))) :=
  ⟨(C6_pairing_deterministic "baab").1,
    (C6_pairing_deterministic "baab").2.2.1 'b',
    (C6_pairing_deterministic "baab").2.2.2 0 ((0, 1), 'a') ((0, 2), 'a')
      (by decide) (by decide)⟩

theorem doorsMap_updateOccupant (g : Grid) (q : Coord) (it : Item) :
    ((updateOccupant g (.grid q) it).map fun e => (e.1, e.2.doors))
      = g.map fun e => (e.1, e.2.doors) := by
  rw [updateOccupant_grid, List.map_map]
  congr 1
  funext e
  by_cases h : e.1 = q
  · rw [Function.comp_apply, if_pos h]
  · rw [Function.comp_apply, if_neg h]

/-- C10: a single move never changes the grid's key set, which room sits at
each coordinate, or any room's door links; the only possible mutation is
the entered room's occupant becoming `Empty`, exactly when it was `Food` —
entering Wall, Edge, Empty, EndGame, a teleport, or the marker leaves the
grid identical. -/
theorem C10_move_frame (g : Game) (robot : Robot) (p : Coord) (room : Room) (u : Urge)
    (g2 : Game)
    (hr : g.robot = some robot) (hrm : robot.room = some (.grid p))
    (hlk : lookupRoom g.grid p = some room)
    (hmv : g.move u = some g2) :
    ((g2.grid.map fun e => (e.1, e.2.doors)) = g.grid.map fun e => (e.1, e.2.doors)) ∧
    (room.doors.openDoor (some u) = .edge → g2.grid = g.grid) ∧
    ∀ q : Coord, room.doors.openDoor (some u) = .grid q →
      (∀ q2 : Coord, q2 ≠ q → lookupRoom g2.grid q2 = lookupRoom g.grid q2) ∧
      ∀ wr : Room, lookupRoom g.grid q = some wr →
        (wr.occupant = .Food →
          g2.grid = updateOccupant g.grid (.grid q) .Empty ∧
          lookupRoom g2.grid q = some { wr with occupant := .Empty }) ∧
        (wr.occupant ≠ .Food → g2.grid = g.grid) := by
  simp only [Game.move, hr, hrm, hlk] at hmv
  cases ht : room.doors.openDoor (some u) with
  | edge =>
    rw [ht] at hmv
    simp only [Game.enterRoom, Item.interact] at hmv
    have hg2 : g2.grid = g.grid := by rw [← Option.some.inj hmv]
    refine ⟨by rw [hg2], fun _ => hg2, ?_⟩
    intro q' hq'
    cases hq'
  | grid q =>
    rw [ht] at hmv
    simp only [Game.enterRoom] at hmv
    cases hlq : lookupRoom g.grid q with
    | none => rw [hlq] at hmv; cases hmv
    | some wr =>
      obtain ⟨occ, drs⟩ := wr
      rw [hlq] at hmv
      cases occ
      all_goals simp only [Item.interact] at hmv
      case Food =>
        have hg2 : g2.grid = updateOccupant g.grid (.grid q) .Empty := by
          rw [← Option.some.inj hmv]
        refine ⟨by rw [hg2, doorsMap_updateOccupant], ?_, ?_⟩
        · intro he
          cases he
        intro q' hq'
        cases RoomRef.grid.inj hq'
        refine ⟨fun q2 hq2 => by rw [hg2, lookupRoom_updateOccupant, if_neg hq2], ?_⟩
        intro wr' hwr'
        have hww : wr' = Room.mk .Food drs := Option.some.inj (hwr'.symm.trans hlq)
        subst hww
        refine ⟨fun _ => ⟨hg2, ?_⟩, fun hnf => absurd rfl hnf⟩
        rw [hg2, lookupRoom_updateOccupant, if_pos rfl, hlq]
        rfl
      all_goals {
        have hg2 : g2.grid = g.grid := by rw [← Option.some.inj hmv]
        refine ⟨by rw [hg2], ?_, ?_⟩
        · intro he
          cases he
        intro q' hq'
        cases RoomRef.grid.inj hq'
        refine ⟨fun q2 _ => by rw [hg2], ?_⟩
        intro wr' hwr'
        have hww := Option.some.inj (hwr'.symm.trans hlq)
        subst hww
        refine ⟨fun hf => ?_, fun _ => hg2⟩
        simp at hf
      }

/-- Witness for C10 on the maze `"R."`: the East move eats the food at
`(0, 1)`; all doors are preserved and the only change is that occupant. -/
theorem C10_witness :
    (((Game.mk (updateOccupant (GameBuilder "R.").grid (.grid (0, 1)) .Empty)
          (some (Robot.mk (some (.grid (0, 1)))))).grid.map
            fun e => (e.1, e.2.doors))
        = (GameBuilder "R.").grid.map fun e => (e.1, e.2.doors)) ∧
    ((Game.mk (updateOccupant (GameBuilder "R.").grid (.grid (0, 1)) .Empty)
          (some (Robot.mk (some (.grid (0, 1)))))).grid
        = updateOccupant (GameBuilder "R.").grid (.grid (0, 1)) .Empty ∧
      lookupRoom
          (Game.mk (updateOccupant (GameBuilder "R.").grid (.grid (0, 1)) .Empty)
            (some (Robot.mk (some (.grid (0, 1)))))).grid (0, 1)
        = some (Room.mk .Empty (Doors.mk .edge .edge .edge (.grid (0, 0))))) :=
  let h := C10_move_frame (GameBuilder "R.") (Robot.mk (some (.grid (0, 0)))) (0, 0)
    (Room.mk .Empty (Doors.mk .edge .edge (.grid (0, 1)) .edge))
    .East
    (Game.mk (updateOccupant (GameBuilder "R.").grid (.grid (0, 1)) .Empty)
      (some (Robot.mk (some (.grid (0, 1))))))
    rfl rfl (by decide) (by decide)
  ⟨h.1, ((h.2.2 (0, 1) rfl).2
    (Room.mk .Food (Doors.mk .edge .edge .edge (.grid (0, 0))))
    (by decide)).1 rfl⟩

end RobotExplorer
